import Mathlib

/-!
Verification of the TTS bot core against its specification.

JavaScript strings are modelled as lists of characters (`Str`); the
functions below are direct translations of the TypeScript source:
`OpenAIService.splitTextIntoChunks` / `generateSpeech` (openaiService),
the Redis rate limiter (`src/redis/ratelimit.ts`) and the BullMQ worker
dispatch (queue module).
-/

namespace TTS

/-- JS strings are modelled as lists of characters. -/
abbrev Str := List Char

/-- The set of characters removed by JavaScript `String.prototype.trim`:
WhiteSpace (TAB, VT, FF, SPACE, NBSP, ZWNBSP, Unicode Zs) plus
LineTerminator (LF, CR, LS, PS). -/
def jsWhitespace (c : Char) : Bool :=
  let n := c.toNat
  n == 0x9 || n == 0xA || n == 0xB || n == 0xC || n == 0xD || n == 0x20 ||
  n == 0xA0 || n == 0x1680 ||
  (decide (0x2000 ≤ n) && decide (n ≤ 0x200A)) ||
  n == 0x2028 || n == 0x2029 || n == 0x202F || n == 0x205F ||
  n == 0x3000 || n == 0xFEFF

/-- JavaScript `s.trim()`. -/
def trim (s : Str) : Str :=
  ((s.dropWhile jsWhitespace).reverse.dropWhile jsWhitespace).reverse

/-- Scan of `lastIndexOf`: remembers the rightmost position at which
`pat` occurs. -/
def lastIndexOfAux (pat : Str) : Str → Nat → Int → Int
  | [], _, best => best
  | c :: rest, i, best =>
      lastIndexOfAux pat rest (i + 1)
        (if pat.isPrefixOf (c :: rest) then (i : Int) else best)

/-- JavaScript `s.lastIndexOf(pat)` for a non-empty pattern: the largest
index at which `pat` occurs in `s`, `-1` if it does not occur. -/
def lastIndexOf (s pat : Str) : Int := lastIndexOfAux pat s 0 (-1)

/-- `OpenAIService.maxChunkLength`: "Safe limit for TTS API". -/
def maxChunkLength : Nat := 3800

/-- `this.maxChunkLength * 0.5`; `3800 * 0.5 = 1900` is exact in floats. -/
def halfChunkLength : Int := 1900

/-- Split-point selection of one iteration of the `while` loop in
`splitTextIntoChunks`: paragraph break past the midpoint, else sentence
end past the midpoint, else clause break past the midpoint, else a hard
cut at `maxChunkLength`. -/
def chooseSplit (remaining : Str) : Nat :=
  let segment := remaining.take maxChunkLength
  let paragraphBreak := lastIndexOf segment ['\n', '\n']
  if paragraphBreak > halfChunkLength then paragraphBreak.toNat + 2
  else
    let sentenceEnd := max (lastIndexOf segment ['.', ' '])
      (max (lastIndexOf segment ['!', ' ']) (lastIndexOf segment ['?', ' ']))
    if sentenceEnd > halfChunkLength then sentenceEnd.toNat + 2
    else
      let clauseBreak := max (lastIndexOf segment [',', ' '])
        (max (lastIndexOf segment [';', ' ']) (lastIndexOf segment [':', ' ']))
      if clauseBreak > halfChunkLength then clauseBreak.toNat + 2
      else maxChunkLength

/-- The `while` loop of `splitTextIntoChunks` (entered only when the
text is longer than `maxChunkLength`). -/
def splitLoop (remaining : Str) : List Str :=
  if remaining.length = 0 then []
  else if remaining.length ≤ maxChunkLength then [trim remaining]
  else
    trim (remaining.take (chooseSplit remaining)) ::
      splitLoop (remaining.drop (chooseSplit remaining))
termination_by remaining.length
decreasing_by
  have hpos : 0 < chooseSplit remaining := by
    unfold chooseSplit
    dsimp only
    split
    · omega
    · split
      · omega
      · split
        · omega
        · decide
  simp only [List.length_drop]
  omega

/-- `OpenAIService.splitTextIntoChunks`. -/
def splitTextIntoChunks (text : Str) : List Str :=
  if text.length ≤ maxChunkLength then [text]
  else (splitLoop text).filter (fun c => decide (0 < c.length))

/-- Join a list of chunk texts with single spaces. -/
def joinSpace : List Str → Str
  | [] => []
  | [c] => c
  | c :: c2 :: rest => c ++ ' ' :: joinSpace (c2 :: rest)

/-- A text with all (JS) whitespace removed: the sequence of
non-whitespace characters, in order. -/
def stripWs (s : Str) : Str := s.filter (fun c => !jsWhitespace c)

/-- Word scanner: `acc` is the current in-progress word, reversed. -/
def wordsOfAux : Str → Str → List Str
  | [], acc => if acc = [] then [] else [acc.reverse]
  | c :: rest, acc =>
      if jsWhitespace c then
        if acc = [] then wordsOfAux rest []
        else acc.reverse :: wordsOfAux rest []
      else wordsOfAux rest (c :: acc)

/-- The words of a text: maximal whitespace-free runs, in order. -/
def wordsOf (s : Str) : List Str := wordsOfAux s []

/-- Total length of a list of chunk texts. -/
def sumLens (cs : List Str) : Nat := (cs.map List.length).sum

def c1text : Str := List.replicate 4000 'a'

/-- The positions in `s` at which `pat` occurs, in increasing order. -/
def hitsIdx (s pat : Str) : List Nat :=
  (List.range s.length).filter (fun j => pat.isPrefixOf (s.drop j))

/-- Modelled from the claim's words: the last position in the window at
which a boundary pattern occurs, if any. -/
def specLastHit (s pat : Str) : Option Nat := (hitsIdx s pat).getLast?

/-- JS `lastIndexOf` encodes a missing hit as `-1`. -/
def optToInt : Option Nat → Int
  | none => -1
  | some i => (i : Int)

/-- The later of two optional hits. -/
def hitMax : Option Nat → Option Nat → Option Nat
  | none, b => b
  | some i, none => some i
  | some i, some j => some (max i j)

/-- A hit accepted only when it lies past the 50% mark of the window. -/
def pastHalf (o : Option Nat) : Option Nat :=
  o.bind (fun i => if halfChunkLength < (i : Int) then some i else none)

/-- The split-point selection exactly as claim C9 states it: a paragraph
break accepted only past the midpoint; otherwise the last sentence
terminator in the window (no midpoint condition); otherwise the last
clause separator (no midpoint condition); otherwise a hard cut. -/
def claimSplitChoice (remaining : Str) : Nat :=
  let segment := remaining.take maxChunkLength
  match pastHalf (specLastHit segment ['\n', '\n']) with
  | some i => i + 2
  | none =>
    match hitMax (specLastHit segment ['.', ' '])
        (hitMax (specLastHit segment ['!', ' '])
          (specLastHit segment ['?', ' '])) with
    | some i => i + 2
    | none =>
      match hitMax (specLastHit segment [',', ' '])
          (hitMax (specLastHit segment [';', ' '])
            (specLastHit segment [':', ' '])) with
      | some i => i + 2
      | none => maxChunkLength

/-- The amended split-point selection: as the claim, but the midpoint
condition applies to the sentence and clause tiers as well. -/
def amendedSplitChoice (remaining : Str) : Nat :=
  let segment := remaining.take maxChunkLength
  match pastHalf (specLastHit segment ['\n', '\n']) with
  | some i => i + 2
  | none =>
    match pastHalf (hitMax (specLastHit segment ['.', ' '])
        (hitMax (specLastHit segment ['!', ' '])
          (specLastHit segment ['?', ' ']))) with
    | some i => i + 2
    | none =>
      match pastHalf (hitMax (specLastHit segment [',', ' '])
          (hitMax (specLastHit segment [';', ' '])
            (specLastHit segment [':', ' ']))) with
      | some i => i + 2
      | none => maxChunkLength

/-- A text on which the claimed and the actual split-point selection
disagree: the only sentence terminator of the window sits at index 100,
before the midpoint. -/
def c9text : Str :=
  List.replicate 100 'a' ++ '.' :: ' ' :: List.replicate 3898 'a'

/-- `RATE_LIMIT_REQUESTS_PER_MINUTE` (ratelimit.ts). -/
def RATE_LIMIT_REQUESTS_PER_MINUTE : Nat := 10

/-- `RATE_LIMIT_CHARS_PER_DAY` (ratelimit.ts). -/
def RATE_LIMIT_CHARS_PER_DAY : Nat := 20000

/-- The Redis keys used by the rate limiter:
`tts:rate:min:{chatId}:{minuteBucket}`, `tts:rate:day:{chatId}:{dateBucket}`
and `tts:rate:notified:{chatId}:{dateBucket}`. -/
inductive RKey where
  | minuteKey (chatId : Int) (minuteBucket : Nat)
  | dayKey (chatId : Int) (dateBucket : String)
  | notifiedKey (chatId : Int) (dateBucket : String)
deriving DecidableEq

/-- The rate-limit keys of the Redis store with their integer values;
`none` models an absent (or expired) key. The notified marker is stored
as the value `1` (the string `'1'` in the source). -/
def Store := RKey → Option Nat

/-- One Redis command issued by the rate limiter. TTLs are recorded but
expiry itself is not modelled (`Store` keeps no clock). -/
inductive RCmd where
  | get (k : RKey)
  | setWithTTL (k : RKey) (v : Nat) (ttlSec : Nat)
  | incr (k : RKey)
  | incrby (k : RKey) (n : Nat)
  | expire (k : RKey) (ttlSec : Nat)
deriving DecidableEq

/-- Effect of one command on the store: `GET` and `EXPIRE` change no
value; `INCR`/`INCRBY` treat an absent key as `0` (Redis semantics);
`SET` overwrites. -/
def applyCmd (s : Store) : RCmd → Store
  | RCmd.get _ => s
  | RCmd.setWithTTL k v _ => fun k2 => if k2 = k then some v else s k2
  | RCmd.incr k => fun k2 => if k2 = k then some ((s k).getD 0 + 1) else s k2
  | RCmd.incrby k n => fun k2 => if k2 = k then some ((s k).getD 0 + n) else s k2
  | RCmd.expire _ _ => s

/-- Run a command list against the store, in order. -/
def runCmds (s : Store) : List RCmd → Store
  | [] => s
  | c :: cs => runCmds (applyCmd s c) cs

/-- The guard `minuteCount && parseInt(minuteCount) >=
RATE_LIMIT_REQUESTS_PER_MINUTE`: a missing key is falsy. -/
def minuteLimited (minuteCount : Option Nat) : Bool :=
  match minuteCount with
  | none => false
  | some n => decide (RATE_LIMIT_REQUESTS_PER_MINUTE ≤ n)

/-- Result of `checkRateLimit`; `none` models an absent optional field. -/
structure RateLimitResult where
  allowed : Bool
  reason : Option String
  shouldNotify : Option Bool
deriving DecidableEq

/-- `checkRateLimit(chatId, charCount)` at a given minute/date bucket:
the hard minute limit first, then the soft day limit which never blocks.
Alongside the result, the list of Redis commands the call issues (only
`GET`s). -/
def checkRateLimit (s : Store) (chatId : Int) (charCount : Nat)
    (minuteBucket : Nat) (dateBucket : String) :
    RateLimitResult × List RCmd :=
  let minuteRateLimitKey := RKey.minuteKey chatId minuteBucket
  let dayRateLimitKey := RKey.dayKey chatId dateBucket
  let notifiedKey := RKey.notifiedKey chatId dateBucket
  if minuteLimited (s minuteRateLimitKey) then
    ({ allowed := false, reason := some "minute_limit", shouldNotify := none },
     [RCmd.get minuteRateLimitKey])
  else
    let currentDayChars := (s dayRateLimitKey).getD 0
    if RATE_LIMIT_CHARS_PER_DAY < currentDayChars + charCount then
      ({ allowed := true, reason := some "day_limit",
         shouldNotify := some (!(s notifiedKey).isSome) },
       [RCmd.get minuteRateLimitKey, RCmd.get dayRateLimitKey,
        RCmd.get notifiedKey])
    else
      ({ allowed := true, reason := none, shouldNotify := none },
       [RCmd.get minuteRateLimitKey, RCmd.get dayRateLimitKey])

/-- `incrementUsage`: the pipelined commands (INCR minute + 2-minute
TTL, INCRBY day by the character count + 48-hour TTL). -/
def incrementUsage (chatId : Int) (charCount : Nat) (minuteBucket : Nat)
    (dateBucket : String) : List RCmd :=
  [RCmd.incr (RKey.minuteKey chatId minuteBucket),
   RCmd.expire (RKey.minuteKey chatId minuteBucket) 120,
   RCmd.incrby (RKey.dayKey chatId dateBucket) charCount,
   RCmd.expire (RKey.dayKey chatId dateBucket) (48 * 60 * 60)]

/-- `markNotified`: set the daily notified marker (value `'1'`) with a
48-hour TTL. -/
def markNotified (chatId : Int) (dateBucket : String) : List RCmd :=
  [RCmd.setWithTTL (RKey.notifiedKey chatId dateBucket) 1 (48 * 60 * 60)]

/-- A store whose minute counter for chat 7 is at the limit. -/
def minuteFullStore : Store := fun k =>
  if k = RKey.minuteKey 7 100 then some 10 else none

/-- A store with the minute counter at the limit and the day counter at
the budget for chat 7. -/
def bothFullStore : Store := fun k =>
  if k = RKey.minuteKey 7 100 then some 10
  else if k = RKey.dayKey 7 "2026-10-11" then some 20000
  else none

/-- A store with an exhausted day budget and a free minute bucket. -/
def dayFullStore : Store := fun k =>
  if k = RKey.dayKey 7 "2026-10-11" then some 20000 else none

/-- Terminal state of one queued job: the BullMQ processor resolving
marks it Completed; a thrown error marks it Failed. -/
inductive JobOutcome where
  | completed
  | failed (msg : String)
deriving DecidableEq

/-- The `switch (data.type)` of `createWorker`'s processor: the four
known kinds dispatch to their handlers ("tts" and "ttsai" share one),
and there is no default case, so any other kind does nothing. -/
def switchBody (handleTTS handleDocument handleVoice : Except String Unit)
    (jobType : String) : Except String Unit :=
  if jobType = "tts" then handleTTS
  else if jobType = "ttsai" then handleTTS
  else if jobType = "document" then handleDocument
  else if jobType = "voice" then handleVoice
  else Except.ok ()

/-- `createWorker`'s processor: run the switch in a `try`; on a thrown
error send `Error: {msg}` to the chat (the second component is the list
of messages sent) and re-throw. -/
def workerProcess (handleTTS handleDocument handleVoice : Except String Unit)
    (jobType : String) : Except String Unit × List String :=
  match switchBody handleTTS handleDocument handleVoice jobType with
  | Except.ok _ => (Except.ok (), [])
  | Except.error msg => (Except.error msg, ["Error: " ++ msg])

/-- BullMQ: a resolved processor completes the job, a throw fails it. -/
def jobOutcome : Except String Unit → JobOutcome
  | Except.ok _ => JobOutcome.completed
  | Except.error msg => JobOutcome.failed msg

/-- A file in the per-job temp directory. -/
inductive ScratchFile where
  | chunkFile (i : Nat)
  | listFile
  | outputFile
deriving DecidableEq

/-- The per-job scratch directory: `none` when it does not exist. -/
abbrev ScratchDir := Option (List ScratchFile)

/-- One `generateSpeech` run's environment: per-chunk synthesis may
throw; each file write may throw; ffmpeg may be unavailable or exit
non-zero. -/
structure SpeechEnv where
  synth : Nat → Except String (List Nat)
  writeOk : ScratchFile → Bool
  ffmpegAvailable : Bool
  concatExitCode : Nat

/-- `fs.writeFile` into the temp directory. -/
def writeScratch (env : SpeechEnv) (d : List ScratchFile) (f : ScratchFile) :
    Except String (List ScratchFile) :=
  if env.writeOk f then Except.ok (d ++ [f]) else Except.error "write failed"

/-- The chunk loop of `generateSpeech`: synthesize chunk `i`, write it
as `chunk-NNNN.opus`, repeat; any throw aborts the loop. Also returns
the files now present in the directory. -/
def chunkLoop (env : SpeechEnv) :
    Nat → Nat → List ScratchFile →
      Except String (List ScratchFile) × List ScratchFile
  | 0, _, d => (Except.ok d, d)
  | count + 1, i, d =>
      match env.synth i with
      | Except.error e => (Except.error e, d)
      | Except.ok _ =>
          match writeScratch env d (ScratchFile.chunkFile i) with
          | Except.error e => (Except.error e, d)
          | Except.ok d2 => chunkLoop env count (i + 1) d2

/-- `concatenateAudio`: check ffmpeg availability, write the concat list
file, run ffmpeg (a non-zero exit throws, with the tool's stderr in the
message; success writes the output file), then delete the list file
(best effort). -/
def concatenateAudio (env : SpeechEnv) (d : List ScratchFile) :
    Except String Unit × List ScratchFile :=
  if !env.ffmpegAvailable then
    (Except.error "FFmpeg is not available. Please install it", d)
  else
    match writeScratch env d ScratchFile.listFile with
    | Except.error e => (Except.error e, d)
    | Except.ok d2 =>
        if env.concatExitCode ≠ 0 then
          (Except.error "FFmpeg concat failed", d2)
        else
          match writeScratch env d2 ScratchFile.outputFile with
          | Except.error e => (Except.error e, d2)
          | Except.ok d3 =>
              (Except.ok (),
               d3.filter (fun f => decide (f ≠ ScratchFile.listFile)))

/-- The multi-chunk `try` body of `generateSpeech`: `mkdir` the temp
directory (initially empty), write all chunk files, concatenate. -/
def generateSpeechBody (env : SpeechEnv) (chunkCount : Nat) :
    Except String Unit × List ScratchFile :=
  match chunkLoop env chunkCount 0 [] with
  | (Except.error e, d) => (Except.error e, d)
  | (Except.ok d, _) => concatenateAudio env d

/-- `fs.rm(tempDir, { recursive: true, force: true })`. -/
def rmTempDir (_d : ScratchDir) : ScratchDir := none

/-- The multi-chunk path of `generateSpeech` as `try ... finally`:
whatever the body does, the `finally` removes the temp directory; the
call's result (success or re-thrown error) is the body's. -/
def generateSpeechMulti (env : SpeechEnv) (chunkCount : Nat) :
    Except String Unit × ScratchDir :=
  let step := generateSpeechBody env chunkCount
  (step.1, rmTempDir (some step.2))

/-- An environment in which every operation succeeds. -/
def okEnv : SpeechEnv where
  synth := fun _ => Except.ok [0]
  writeOk := fun _ => true
  ffmpegAvailable := true
  concatExitCode := 0

/-- An environment in which synthesis of the second chunk throws. -/
def failEnv : SpeechEnv where
  synth := fun i => if i = 0 then Except.ok [0] else Except.error "boom"
  writeOk := fun _ => true
  ffmpegAvailable := true
  concatExitCode := 0

/-- The control characters stripped by `generateSpeech`:
`/[\u0000-\u001F\u007F-\u009F]/g`. -/
def isStrippedControl (c : Char) : Bool :=
  decide (c.toNat ≤ 0x1F) ||
    (decide (0x7F ≤ c.toNat) && decide (c.toNat ≤ 0x9F))

/-- The sanitisation at the top of `generateSpeech`: remove the control
characters, then trim. -/
def sanitize (text : Str) : Str :=
  trim (text.filter (fun c => !isStrippedControl c))

/-- The front of `generateSpeech`: sanitize; throw `Text is empty after
sanitization` if nothing remains — before any chunking or provider
call — and otherwise chunk the sanitized text. -/
def generateSpeechChunks (text : Str) : Except String (List Str) :=
  let sanitizedText := sanitize text
  if sanitizedText = [] then Except.error "Text is empty after sanitization"
  else Except.ok (splitTextIntoChunks sanitizedText)

theorem chooseSplit_pos (remaining : Str) : 0 < chooseSplit remaining := by
  unfold chooseSplit
  dsimp only
  split
  · omega
  · split
    · omega
    · split
      · omega
      · decide

theorem length_le_of_isPrefixOf : ∀ (p l : Str), p.isPrefixOf l = true → p.length ≤ l.length
  | [], l, _ => by simp
  | _ :: _, [], h => by simp [List.isPrefixOf] at h
  | a :: as, b :: bs, h => by
      simp only [List.isPrefixOf, Bool.and_eq_true] at h
      have := length_le_of_isPrefixOf as bs h.2
      simp only [List.length_cons]
      omega

theorem lastIndexOfAux_le (pat : Str) (hp : 2 ≤ pat.length) :
    ∀ (s : Str) (i : Nat) (best : Int),
      lastIndexOfAux pat s i best ≤ max best ((i : Int) + s.length - 2)
  | [], i, best => by
      simp [lastIndexOfAux]
  | c :: rest, i, best => by
      rw [lastIndexOfAux]
      refine le_trans (lastIndexOfAux_le pat hp rest (i + 1) _) ?_
      apply sup_le
      · split
        · rename_i hpre
          have hplen : pat.length ≤ rest.length + 1 := by
            have := length_le_of_isPrefixOf pat (c :: rest) hpre
            simpa using this
          refine le_max_of_le_right ?_
          simp only [List.length_cons]
          push_cast
          omega
        · exact le_max_left _ _
      · refine le_max_of_le_right ?_
        simp only [List.length_cons]
        push_cast
        omega

theorem lastIndexOf_le (s pat : Str) (hp : 2 ≤ pat.length) :
    lastIndexOf s pat ≤ max (-1) ((s.length : Int) - 2) := by
  have := lastIndexOfAux_le pat hp s 0 (-1)
  simpa [lastIndexOf] using this

theorem chooseSplit_le (remaining : Str) :
    chooseSplit remaining ≤ maxChunkLength := by
  have hseg : (remaining.take maxChunkLength).length ≤ maxChunkLength := by
    simp [List.length_take]
  unfold chooseSplit
  dsimp only
  split
  · rename_i h
    have hle := lastIndexOf_le (remaining.take maxChunkLength) ['\n', '\n'] (by decide)
    rcases le_max_iff.mp hle with hm | hm <;>
      (simp only [halfChunkLength] at h; simp only [maxChunkLength] at *; omega)
  · split
    · rename_i h
      have h1 := lastIndexOf_le (remaining.take maxChunkLength) ['.', ' '] (by decide)
      have h2 := lastIndexOf_le (remaining.take maxChunkLength) ['!', ' '] (by decide)
      have h3 := lastIndexOf_le (remaining.take maxChunkLength) ['?', ' '] (by decide)
      have hm := sup_le h1 (sup_le h2 h3)
      rcases le_max_iff.mp hm with hm1 | hm1 <;>
        (simp only [halfChunkLength] at h; simp only [maxChunkLength] at *; omega)
    · split
      · rename_i h
        have h1 := lastIndexOf_le (remaining.take maxChunkLength) [',', ' '] (by decide)
        have h2 := lastIndexOf_le (remaining.take maxChunkLength) [';', ' '] (by decide)
        have h3 := lastIndexOf_le (remaining.take maxChunkLength) [':', ' '] (by decide)
        have hm := sup_le h1 (sup_le h2 h3)
        rcases le_max_iff.mp hm with hm1 | hm1 <;>
          (simp only [halfChunkLength] at h; simp only [maxChunkLength] at *; omega)
      · exact le_refl _

theorem trim_length_le (s : Str) : (trim s).length ≤ s.length := by
  unfold trim
  simp only [List.length_reverse]
  refine le_trans (List.Sublist.length_le (List.dropWhile_sublist _)) ?_
  simp only [List.length_reverse]
  exact List.Sublist.length_le (List.dropWhile_sublist _)

theorem stripWs_dropWhile (s : Str) :
    stripWs (s.dropWhile jsWhitespace) = stripWs s := by
  conv_rhs => rw [← List.takeWhile_append_dropWhile jsWhitespace s]
  unfold stripWs
  rw [List.filter_append]
  have h : (s.takeWhile jsWhitespace).filter (fun c => !jsWhitespace c) = [] := by
    rw [List.filter_eq_nil_iff]
    intro c hc
    have := List.mem_takeWhile_imp hc
    simp [this]
  rw [h, List.nil_append]

theorem stripWs_reverse (s : Str) : stripWs s.reverse = (stripWs s).reverse :=
  List.filter_reverse _ _

theorem stripWs_trim (s : Str) : stripWs (trim s) = stripWs s := by
  unfold trim
  rw [stripWs_reverse, stripWs_dropWhile, stripWs_reverse, List.reverse_reverse,
    stripWs_dropWhile]

theorem sumLens_cons (c : Str) (cs : List Str) :
    sumLens (c :: cs) = c.length + sumLens cs := by
  simp [sumLens]

theorem sumLens_filter_le (p : Str → Bool) :
    ∀ cs : List Str, sumLens (cs.filter p) ≤ sumLens cs
  | [] => le_refl _
  | c :: cs => by
      have ih := sumLens_filter_le p cs
      rw [List.filter_cons]
      split
      · rw [sumLens_cons, sumLens_cons]
        omega
      · rw [sumLens_cons]
        omega

theorem splitLoop_chunk_length (rem : Str) :
    ∀ c ∈ splitLoop rem, c.length ≤ maxChunkLength := by
  intro c hc
  rw [splitLoop] at hc
  split at hc
  · simp at hc
  · split at hc
    · rename_i h0 h1
      simp only [List.mem_singleton] at hc
      subst hc
      exact le_trans (trim_length_le _) h1
    · rename_i h0 h1
      rcases List.mem_cons.mp hc with hc | hc
      · subst hc
        refine le_trans (trim_length_le _) ?_
        refine le_trans ?_ (chooseSplit_le rem)
        simp [List.length_take]
      · exact splitLoop_chunk_length (rem.drop (chooseSplit rem)) c hc
termination_by rem.length
decreasing_by
  have := chooseSplit_pos rem
  simp only [List.length_drop]
  omega

theorem sumLens_splitLoop (rem : Str) : sumLens (splitLoop rem) ≤ rem.length := by
  rw [splitLoop]
  split
  · simp [sumLens]
  · split
    · rename_i h0 h1
      rw [sumLens_cons]
      have := trim_length_le rem
      simp [sumLens]
      omega
    · rename_i h0 h1
      have ih := sumLens_splitLoop (rem.drop (chooseSplit rem))
      rw [sumLens_cons]
      have h2 : (trim (rem.take (chooseSplit rem))).length ≤ chooseSplit rem :=
        le_trans (trim_length_le _) (by simp [List.length_take])
      have h3 : (rem.drop (chooseSplit rem)).length = rem.length - chooseSplit rem :=
        List.length_drop _ _
      have h4 := chooseSplit_le rem
      rw [h3] at ih
      simp only [maxChunkLength] at *
      omega
termination_by rem.length
decreasing_by
  have := chooseSplit_pos rem
  simp only [List.length_drop]
  omega

theorem stripWs_flatten_splitLoop (rem : Str) :
    stripWs (splitLoop rem).flatten = stripWs rem := by
  rw [splitLoop]
  split
  · rename_i h0
    rw [List.length_eq_zero] at h0
    subst h0
    rfl
  · split
    · rename_i h0 h1
      simp only [List.flatten_cons, List.flatten_nil, List.append_nil]
      exact stripWs_trim rem
    · rename_i h0 h1
      have ih := stripWs_flatten_splitLoop (rem.drop (chooseSplit rem))
      simp only [List.flatten_cons]
      unfold stripWs
      rw [List.filter_append]
      have h2 : (trim (rem.take (chooseSplit rem))).filter (fun c => !jsWhitespace c) =
          (rem.take (chooseSplit rem)).filter (fun c => !jsWhitespace c) := stripWs_trim _
      rw [h2]
      unfold stripWs at ih
      rw [ih, ← List.filter_append, List.take_append_drop]
termination_by rem.length
decreasing_by
  have := chooseSplit_pos rem
  simp only [List.length_drop]
  omega

theorem stripWs_joinSpace : ∀ l : List Str, stripWs (joinSpace l) = stripWs l.flatten
  | [] => rfl
  | [c] => by simp [joinSpace, stripWs]
  | c :: c2 :: rest => by
      have ih := stripWs_joinSpace (c2 :: rest)
      show stripWs (c ++ ' ' :: joinSpace (c2 :: rest)) = _
      unfold stripWs at ih ⊢
      rw [List.flatten_cons, List.filter_append, List.filter_append, List.filter_cons]
      have hws : (!jsWhitespace ' ') = false := by decide
      rw [hws]
      simp only [ih, if_false, Bool.false_eq_true]

theorem dropWhile_eq_self_of_all (p : Char → Bool) :
    ∀ l : Str, (∀ c ∈ l, p c = false) → l.dropWhile p = l
  | [], _ => rfl
  | c :: rest, h => by
      rw [List.dropWhile_cons]
      have := h c (List.mem_cons_self c rest)
      simp [this]

theorem trim_of_no_ws (s : Str) (h : ∀ c ∈ s, jsWhitespace c = false) :
    trim s = s := by
  unfold trim
  rw [dropWhile_eq_self_of_all _ _ h]
  rw [dropWhile_eq_self_of_all _ _ (fun c hc => h c (List.mem_reverse.mp hc))]
  exact List.reverse_reverse s

theorem takeWhile_eq_self_of_all (p : Char → Bool) :
    ∀ l : Str, (∀ c ∈ l, p c = true) → l.takeWhile p = l
  | [], _ => rfl
  | c :: rest, h => by
      rw [List.takeWhile_cons]
      have hc := h c (List.mem_cons_self c rest)
      have ih := takeWhile_eq_self_of_all p rest
        (fun x hx => h x (List.mem_cons_of_mem _ hx))
      simp [hc, ih]

theorem dropWhile_eq_nil_of_all (p : Char → Bool) :
    ∀ l : Str, (∀ c ∈ l, p c = true) → l.dropWhile p = []
  | [], _ => rfl
  | c :: rest, h => by
      rw [List.dropWhile_cons]
      have hc := h c (List.mem_cons_self c rest)
      have ih := dropWhile_eq_nil_of_all p rest
        (fun x hx => h x (List.mem_cons_of_mem _ hx))
      simp [hc, ih]

theorem takeWhile_append_stop (p : Char → Bool) (b : Char) (v : Str)
    (hb : p b = false) :
    ∀ u : Str, (∀ c ∈ u, p c = true) → (u ++ b :: v).takeWhile p = u
  | [], _ => by
      rw [List.nil_append, List.takeWhile_cons]
      simp [hb]
  | c :: u, h => by
      rw [List.cons_append, List.takeWhile_cons]
      have hc := h c (List.mem_cons_self c u)
      have ih := takeWhile_append_stop p b v hb u
        (fun x hx => h x (List.mem_cons_of_mem _ hx))
      simp [hc, ih]

theorem dropWhile_append_stop (p : Char → Bool) (b : Char) (v : Str)
    (hb : p b = false) :
    ∀ u : Str, (∀ c ∈ u, p c = true) → (u ++ b :: v).dropWhile p = b :: v
  | [], _ => by
      rw [List.nil_append, List.dropWhile_cons]
      simp [hb]
  | c :: u, h => by
      rw [List.cons_append, List.dropWhile_cons]
      have hc := h c (List.mem_cons_self c u)
      have ih := dropWhile_append_stop p b v hb u
        (fun x hx => h x (List.mem_cons_of_mem _ hx))
      simp [hc, ih]

theorem mem_replicate_ne {n : Nat} {a : Char} (p : Char) (h : a ≠ p) :
    ∀ c ∈ List.replicate n a, c ≠ p :=
  fun c hc => by rw [List.eq_of_mem_replicate hc]; exact h

theorem flatten_filter_pos :
    ∀ l : List Str,
      (l.filter (fun c => decide (0 < c.length))).flatten = l.flatten
  | [] => rfl
  | c :: rest => by
      have ih := flatten_filter_pos rest
      rw [List.filter_cons]
      split
      · simp only [List.flatten_cons, ih]
      · rename_i h
        simp only [decide_eq_true_eq, Nat.not_lt, Nat.le_zero,
          List.length_eq_zero] at h
        subst h
        simp only [List.flatten_cons, List.nil_append, ih]

theorem lastIndexOfAux_no_head (p : Char) (pt : Str) :
    ∀ (s : Str) (i : Nat) (best : Int), (∀ c ∈ s, c ≠ p) →
      lastIndexOfAux (p :: pt) s i best = best
  | [], _, _, _ => rfl
  | c :: rest, i, best, h => by
      rw [lastIndexOfAux]
      have hc : (p == c) = false := by
        have := h c (List.mem_cons_self c rest)
        simp only [beq_eq_false_iff_ne, ne_eq]
        exact fun hpc => this hpc.symm
      have hpre : (p :: pt).isPrefixOf (c :: rest) = false := by
        simp [List.isPrefixOf, hc]
      rw [hpre]
      simp only [Bool.false_eq_true, if_false]
      exact lastIndexOfAux_no_head p pt rest (i + 1) best
        (fun x hx => h x (List.mem_cons_of_mem _ hx))

theorem lastIndexOf_no_head (s : Str) (p : Char) (pt : Str)
    (h : ∀ c ∈ s, c ≠ p) : lastIndexOf s (p :: pt) = -1 :=
  lastIndexOfAux_no_head p pt s 0 (-1) h

theorem lastIndexOfAux_append_skip (p : Char) (pt : Str) :
    ∀ u : Str, (∀ c ∈ u, c ≠ p) → ∀ (v : Str) (i : Nat) (best : Int),
      lastIndexOfAux (p :: pt) (u ++ v) i best =
        lastIndexOfAux (p :: pt) v (i + u.length) best
  | [], _, v, i, best => by simp
  | c :: u, h, v, i, best => by
      rw [List.cons_append, lastIndexOfAux]
      have hc : (p == c) = false := by
        have := h c (List.mem_cons_self c u)
        simp only [beq_eq_false_iff_ne, ne_eq]
        exact fun hpc => this hpc.symm
      have hpre : (p :: pt).isPrefixOf (c :: (u ++ v)) = false := by
        simp [List.isPrefixOf, hc]
      rw [hpre]
      simp only [Bool.false_eq_true, if_false]
      rw [lastIndexOfAux_append_skip p pt u
        (fun x hx => h x (List.mem_cons_of_mem _ hx)) v (i + 1) best]
      have heq : i + 1 + u.length = i + (c :: u).length := by
        simp only [List.length_cons]
        omega
      rw [heq]

theorem chooseSplit_replicate_a (n : Nat) :
    chooseSplit (List.replicate n 'a') = maxChunkLength := by
  unfold chooseSplit
  dsimp only
  rw [List.take_replicate]
  rw [lastIndexOf_no_head _ _ _ (mem_replicate_ne _ (by decide)),
      lastIndexOf_no_head _ _ _ (mem_replicate_ne _ (by decide)),
      lastIndexOf_no_head _ _ _ (mem_replicate_ne _ (by decide)),
      lastIndexOf_no_head _ _ _ (mem_replicate_ne _ (by decide)),
      lastIndexOf_no_head _ _ _ (mem_replicate_ne _ (by decide)),
      lastIndexOf_no_head _ _ _ (mem_replicate_ne _ (by decide)),
      lastIndexOf_no_head _ _ _ (mem_replicate_ne _ (by decide))]
  norm_num [halfChunkLength]

theorem splitLoop_replicate_a (n : Nat) (h1 : maxChunkLength < n)
    (h2 : n ≤ 2 * maxChunkLength) :
    splitLoop (List.replicate n 'a') =
      [List.replicate maxChunkLength 'a',
       List.replicate (n - maxChunkLength) 'a'] := by
  have hws : ∀ m : Nat, ∀ c ∈ List.replicate m 'a', jsWhitespace c = false :=
    fun m c hc => by rw [List.eq_of_mem_replicate hc]; decide
  rw [splitLoop]
  rw [List.length_replicate]
  rw [if_neg (by omega), if_neg (by omega)]
  rw [chooseSplit_replicate_a]
  rw [List.take_replicate, List.drop_replicate]
  have hmin : min maxChunkLength n = maxChunkLength := by omega
  rw [hmin]
  rw [trim_of_no_ws _ (hws _)]
  rw [splitLoop]
  rw [List.length_replicate]
  rw [if_neg (by simp only [maxChunkLength] at *; omega),
      if_pos (by simp only [maxChunkLength] at *; omega)]
  rw [trim_of_no_ws _ (hws _)]

theorem splitTextIntoChunks_c1text :
    splitTextIntoChunks c1text =
      [List.replicate 3800 'a', List.replicate 200 'a'] := by
  unfold splitTextIntoChunks c1text
  rw [List.length_replicate, if_neg (by norm_num [maxChunkLength])]
  rw [splitLoop_replicate_a 4000 (by norm_num [maxChunkLength])
    (by norm_num [maxChunkLength])]
  show List.filter _ [List.replicate maxChunkLength 'a',
    List.replicate (4000 - maxChunkLength) 'a'] = _
  rw [List.filter_cons, List.filter_cons]
  norm_num [maxChunkLength]

theorem wordsOfAux_nonws_append (u : Str) (hu : ∀ c ∈ u, jsWhitespace c = false) :
    ∀ (v : Str) (acc : Str),
      wordsOfAux (u ++ v) acc = wordsOfAux v (u.reverse ++ acc) := by
  induction u with
  | nil => intro v acc; simp
  | cons c u ih =>
      intro v acc
      rw [List.cons_append, wordsOfAux]
      have hc := hu c (List.mem_cons_self c u)
      rw [hc]
      simp only [Bool.false_eq_true, if_false]
      rw [ih (fun x hx => hu x (List.mem_cons_of_mem _ hx)) v (c :: acc)]
      rw [List.reverse_cons, List.append_assoc, List.singleton_append]

theorem wordsOfAux_replicate_a (n : Nat) (acc : Str) (hacc : acc ≠ []) :
    wordsOfAux (List.replicate n 'a') acc =
      [acc.reverse ++ List.replicate n 'a'] := by
  have hws : ∀ m : Nat, ∀ c ∈ List.replicate m 'a', jsWhitespace c = false :=
    fun m c hc => by rw [List.eq_of_mem_replicate hc]; decide
  rw [show List.replicate n 'a' = List.replicate n 'a' ++ [] from
    (List.append_nil _).symm]
  rw [wordsOfAux_nonws_append _ (hws n) [] acc]
  rw [wordsOfAux]
  rw [if_neg (by simp [hacc])]
  rw [List.reverse_append, List.reverse_reverse, List.append_nil]

theorem wordsOf_replicate_a (n : Nat) (h : 0 < n) :
    wordsOf (List.replicate n 'a') = [List.replicate n 'a'] := by
  obtain ⟨m, rfl⟩ : ∃ m, n = m + 1 := ⟨n - 1, by omega⟩
  rw [List.replicate_succ, wordsOf, wordsOfAux]
  rw [if_neg (by decide)]
  rw [wordsOfAux_replicate_a m ['a'] (by simp)]
  rw [List.reverse_singleton, List.singleton_append]

theorem wordsOf_c1join :
    wordsOf (List.replicate 3800 'a' ++ ' ' :: List.replicate 200 'a') =
      [List.replicate 3800 'a', List.replicate 200 'a'] := by
  have hws : ∀ m : Nat, ∀ c ∈ List.replicate m 'a', jsWhitespace c = false :=
    fun m c hc => by rw [List.eq_of_mem_replicate hc]; decide
  rw [wordsOf, wordsOfAux_nonws_append _ (hws 3800)]
  rw [wordsOfAux]
  rw [if_pos (by decide)]
  have haccne : (List.replicate 3800 'a').reverse ++ ([] : Str) ≠ [] := by
    rw [List.append_nil]
    intro hnil
    have := congrArg List.length hnil
    rw [List.length_reverse, List.length_replicate, List.length_nil] at this
    omega
  rw [if_neg haccne]
  rw [List.append_nil, List.reverse_reverse]
  have h200 : wordsOfAux (List.replicate 200 'a') [] =
      [List.replicate 200 'a'] := wordsOf_replicate_a 200 (by norm_num)
  rw [h200]

/-- C1 (counterexample): on a 4000-character text with no whitespace the
hard cut splits mid-word, so the words of the space-joined chunks differ
from the words of the input. -/
theorem splitTextIntoChunks_words_counterexample :
    wordsOf (joinSpace (splitTextIntoChunks c1text)) ≠ wordsOf c1text := by
  rw [splitTextIntoChunks_c1text]
  show wordsOf (List.replicate 3800 'a' ++ ' ' :: List.replicate 200 'a') ≠ _
  rw [wordsOf_c1join]
  show _ ≠ wordsOf (List.replicate 4000 'a')
  rw [wordsOf_replicate_a 4000 (by norm_num)]
  intro h
  have := congrArg List.length h
  rw [List.length_cons, List.length_cons, List.length_cons, List.length_nil]
    at this
  omega

/-- C1 (amended): the chunk texts of `splitTextIntoChunks` together are
no longer than the input, and joining them with single spaces preserves
the input's non-whitespace characters in order (no loss, duplication or
reordering of characters); word boundaries are only guaranteed up to the
hard-cut fallback. -/
theorem splitTextIntoChunks_content (text : Str) :
    sumLens (splitTextIntoChunks text) ≤ text.length ∧
      stripWs (joinSpace (splitTextIntoChunks text)) = stripWs text := by
  unfold splitTextIntoChunks
  split
  · exact ⟨by simp [sumLens], rfl⟩
  · constructor
    · exact le_trans (sumLens_filter_le _ _) (sumLens_splitLoop text)
    · rw [stripWs_joinSpace, flatten_filter_pos, stripWs_flatten_splitLoop]

/-- C2 (counterexample): a short text is returned as a single chunk
without trimming, so for input `" hi "` the chunk is not the trimmed
text. -/
theorem splitTextIntoChunks_short_counterexample :
    splitTextIntoChunks [' ', 'h', 'i', ' '] = [[' ', 'h', 'i', ' ']] ∧
      trim [' ', 'h', 'i', ' '] ≠ [' ', 'h', 'i', ' '] := by
  constructor
  · decide
  · decide

/-- C2 (amended): for every text of length at most `maxChunkLength`,
`splitTextIntoChunks` returns exactly one chunk equal to the text
itself, untrimmed. -/
theorem splitTextIntoChunks_short (text : Str)
    (h : text.length ≤ maxChunkLength) :
    splitTextIntoChunks text = [text] := by
  unfold splitTextIntoChunks
  rw [if_pos h]

theorem splitTextIntoChunks_short_witness :
    (['h', 'i'] : Str).length ≤ maxChunkLength ∧
      splitTextIntoChunks ['h', 'i'] = [['h', 'i']] :=
  ⟨by decide, splitTextIntoChunks_short ['h', 'i'] (by decide)⟩

/-- C7: every chunk produced by `splitTextIntoChunks` has length at most
`maxChunkLength`, including chunks produced by the hard-cut fallback. -/
theorem splitTextIntoChunks_length_bound (text : Str) :
    ∀ c ∈ splitTextIntoChunks text, c.length ≤ maxChunkLength := by
  intro c hc
  unfold splitTextIntoChunks at hc
  split at hc
  · rename_i h
    simp only [List.mem_singleton] at hc
    subst hc
    exact h
  · exact splitLoop_chunk_length text c (List.mem_of_mem_filter hc)

theorem splitTextIntoChunks_length_bound_witness :
    (['h', 'i'] : Str) ∈ splitTextIntoChunks ['h', 'i'] ∧
      (['h', 'i'] : Str).length ≤ maxChunkLength :=
  ⟨by decide, splitTextIntoChunks_length_bound ['h', 'i'] ['h', 'i'] (by decide)⟩

theorem hitsIdx_cons (pat : Str) (c : Char) (rest : Str) :
    hitsIdx (c :: rest) pat =
      (if pat.isPrefixOf (c :: rest) then [0] else []) ++
        (hitsIdx rest pat).map Nat.succ := by
  unfold hitsIdx
  rw [List.length_cons, List.range_succ_eq_map]
  rw [List.filter_cons]
  rw [List.filter_map]
  have hcomp : ((fun j => pat.isPrefixOf ((c :: rest).drop j)) ∘ Nat.succ) =
      (fun j => pat.isPrefixOf (rest.drop j)) := by
    funext j
    simp [List.drop_succ_cons]
  rw [hcomp]
  simp only [List.drop_zero]
  split
  · rw [List.singleton_append]
  · rw [List.nil_append]

theorem lastIndexOfAux_eq_getLast (pat : Str) :
    ∀ (s : Str) (i : Nat) (best : Int),
      lastIndexOfAux pat s i best =
        (match (hitsIdx s pat).getLast? with
         | some j => ((i + j : Nat) : Int)
         | none => best)
  | [], i, best => by
      unfold hitsIdx
      simp [lastIndexOfAux]
  | c :: rest, i, best => by
      rw [lastIndexOfAux]
      rw [lastIndexOfAux_eq_getLast pat rest (i + 1) _]
      rw [hitsIdx_cons, List.getLast?_append, List.getLast?_map]
      cases hre : (hitsIdx rest pat).getLast? with
      | none =>
          have hred : (Option.map Nat.succ (none : Option Nat)).or
              ((if pat.isPrefixOf (c :: rest) = true then [0] else []).getLast?) =
              ((if pat.isPrefixOf (c :: rest) = true then [0] else []).getLast?) := rfl
          rw [hred]
          by_cases hb : pat.isPrefixOf (c :: rest) = true
          · rw [if_pos hb, if_pos hb]
            show ((i : Int)) = ((i + 0 : Nat) : Int)
            norm_num
          · rw [if_neg hb, if_neg hb]
            rfl
      | some j =>
          have hred : (Option.map Nat.succ (some j)).or
              ((if pat.isPrefixOf (c :: rest) = true then [0] else []).getLast?) =
              some (Nat.succ j) := rfl
          rw [hred]
          show ((i + 1 + j : Nat) : Int) = ((i + Nat.succ j : Nat) : Int)
          congr 1
          omega

theorem lastIndexOf_eq_spec (s pat : Str) :
    lastIndexOf s pat = optToInt (specLastHit s pat) := by
  rw [lastIndexOf, lastIndexOfAux_eq_getLast]
  unfold specLastHit optToInt
  cases (hitsIdx s pat).getLast? with
  | none => rfl
  | some j => simp

theorem optToInt_hitMax (a b : Option Nat) :
    optToInt (hitMax a b) = max (optToInt a) (optToInt b) := by
  cases a with
  | none =>
      cases b with
      | none => exact (max_self _).symm
      | some j =>
          show (j : Int) = max (-1) (j : Int)
          exact (max_eq_right (by omega)).symm
  | some i =>
      cases b with
      | none =>
          show (i : Int) = max (i : Int) (-1)
          exact (max_eq_left (by omega)).symm
      | some j =>
          show ((max i j : Nat) : Int) = max (i : Int) (j : Int)
          exact_mod_cast rfl

theorem tier_eq (o : Option Nat) (k : Nat) :
    (if optToInt o > halfChunkLength then (optToInt o).toNat + 2 else k) =
      (match pastHalf o with
       | some i => i + 2
       | none => k) := by
  cases o with
  | none =>
      rw [if_neg (by decide)]
      rfl
  | some i =>
      show (if (i : Int) > halfChunkLength then ((i : Int)).toNat + 2 else k) = _
      by_cases h : halfChunkLength < (i : Int)
      · rw [if_pos h]
        have hp : pastHalf (some i) = some i := by
          simp [pastHalf, h]
        rw [hp]
        simp
      · rw [if_neg h]
        have hp : pastHalf (some i) = none := by
          simp [pastHalf, h]
        rw [hp]

/-- C9 (amended): the split point is chosen by the claimed priority
order, but the past-the-midpoint condition applies to all three natural
boundary tiers (paragraph, sentence, clause), with the hard cut as the
final fallback; `splitLoop` cuts each over-long window at that point. -/
theorem chooseSplit_priority_amended (remaining : Str)
    (h : maxChunkLength < remaining.length) :
    chooseSplit remaining = amendedSplitChoice remaining ∧
      splitLoop remaining =
        trim (remaining.take (chooseSplit remaining)) ::
          splitLoop (remaining.drop (chooseSplit remaining)) := by
  constructor
  · unfold chooseSplit amendedSplitChoice
    dsimp only
    rw [lastIndexOf_eq_spec, lastIndexOf_eq_spec, lastIndexOf_eq_spec,
      lastIndexOf_eq_spec, lastIndexOf_eq_spec, lastIndexOf_eq_spec,
      lastIndexOf_eq_spec]
    rw [← optToInt_hitMax, ← optToInt_hitMax, ← optToInt_hitMax,
      ← optToInt_hitMax]
    rw [tier_eq, tier_eq, tier_eq]
  · conv_lhs => rw [splitLoop]
    rw [if_neg (by omega), if_neg (by omega)]

theorem chooseSplit_priority_amended_witness :
    maxChunkLength < (List.replicate 3801 'a').length ∧
      (chooseSplit (List.replicate 3801 'a') =
          amendedSplitChoice (List.replicate 3801 'a') ∧
        splitLoop (List.replicate 3801 'a') =
          trim ((List.replicate 3801 'a').take
              (chooseSplit (List.replicate 3801 'a'))) ::
            splitLoop ((List.replicate 3801 'a').drop
              (chooseSplit (List.replicate 3801 'a')))) :=
  ⟨by unfold maxChunkLength; rw [List.length_replicate]; omega,
   chooseSplit_priority_amended (List.replicate 3801 'a')
     (by unfold maxChunkLength; rw [List.length_replicate]; omega)⟩

theorem specLastHit_none_of (s pat : Str) (h : lastIndexOf s pat = -1) :
    specLastHit s pat = none := by
  have heq := lastIndexOf_eq_spec s pat
  rw [h] at heq
  cases hs : specLastHit s pat with
  | none => rfl
  | some j =>
      rw [hs] at heq
      exfalso
      have : (-1 : Int) = (j : Int) := heq
      omega

theorem specLastHit_some_of (s pat : Str) (j : Nat)
    (h : lastIndexOf s pat = (j : Int)) : specLastHit s pat = some j := by
  have heq := lastIndexOf_eq_spec s pat
  rw [h] at heq
  cases hs : specLastHit s pat with
  | none =>
      rw [hs] at heq
      exfalso
      have : (j : Int) = -1 := heq
      omega
  | some k =>
      rw [hs] at heq
      have : (j : Int) = (k : Int) := heq
      have : j = k := by exact_mod_cast this
      rw [this]

theorem c9seg_take :
    c9text.take maxChunkLength =
      List.replicate 100 'a' ++ '.' :: ' ' :: List.replicate 3698 'a' := by
  unfold c9text maxChunkLength
  rw [List.take_append_eq_append_take]
  rw [List.take_of_length_le (by rw [List.length_replicate]; omega)]
  rw [List.length_replicate]
  rw [show (3800 - 100 : Nat) = 3698 + 1 + 1 from rfl]
  rw [List.take_succ_cons, List.take_succ_cons, List.take_replicate]
  rw [show min 3698 3898 = 3698 from by omega]

theorem c9seg_mem (c : Char)
    (hc : c ∈ List.replicate 100 'a' ++ '.' :: ' ' :: List.replicate 3698 'a') :
    c = 'a' ∨ c = '.' ∨ c = ' ' := by
  rcases List.mem_append.mp hc with h | h
  · exact Or.inl (List.eq_of_mem_replicate h)
  · rcases List.mem_cons.mp h with h | h
    · exact Or.inr (Or.inl h)
    · rcases List.mem_cons.mp h with h | h
      · exact Or.inr (Or.inr h)
      · exact Or.inl (List.eq_of_mem_replicate h)

theorem c9_lastIndexOf_dot :
    lastIndexOf (List.replicate 100 'a' ++ '.' :: ' ' :: List.replicate 3698 'a')
      ['.', ' '] = 100 := by
  unfold lastIndexOf
  rw [lastIndexOfAux_append_skip _ _ _ (mem_replicate_ne _ (by decide)) _ 0 (-1)]
  rw [List.length_replicate]
  rw [lastIndexOfAux]
  rw [show (['.', ' '].isPrefixOf ('.' :: ' ' :: List.replicate 3698 'a')) = true
    from by decide]
  rw [if_pos rfl]
  rw [lastIndexOfAux_no_head '.' [' '] _ _ _ ?h]
  case h =>
    intro c hc
    rcases List.mem_cons.mp hc with h | h
    · rw [h]; decide
    · rw [List.eq_of_mem_replicate h]; decide
  rfl

theorem c9_lastIndexOf_none (p : Char) (pt : Str)
    (hp1 : p ≠ 'a') (hp2 : p ≠ '.') (hp3 : p ≠ ' ') :
    lastIndexOf (List.replicate 100 'a' ++ '.' :: ' ' :: List.replicate 3698 'a')
      (p :: pt) = -1 := by
  apply lastIndexOf_no_head
  intro c hc
  rcases c9seg_mem c hc with h | h | h <;>
    (rw [h]; intro he; first
      | exact hp1 he.symm
      | exact hp2 he.symm
      | exact hp3 he.symm)

theorem chooseSplit_c9text : chooseSplit c9text = maxChunkLength := by
  unfold chooseSplit
  dsimp only
  rw [c9seg_take]
  rw [c9_lastIndexOf_none '\n' _ (by decide) (by decide) (by decide)]
  rw [if_neg (by decide)]
  rw [c9_lastIndexOf_dot,
    c9_lastIndexOf_none '!' _ (by decide) (by decide) (by decide),
    c9_lastIndexOf_none '?' _ (by decide) (by decide) (by decide)]
  rw [if_neg (by decide)]
  rw [c9_lastIndexOf_none ',' _ (by decide) (by decide) (by decide),
    c9_lastIndexOf_none ';' _ (by decide) (by decide) (by decide),
    c9_lastIndexOf_none ':' _ (by decide) (by decide) (by decide)]
  rw [if_neg (by decide)]

theorem claimSplitChoice_of_hits (remaining : Str) (j : Nat)
    (hpara : specLastHit (remaining.take maxChunkLength) ['\n', '\n'] = none)
    (hdot : specLastHit (remaining.take maxChunkLength) ['.', ' '] = some j)
    (hexc : specLastHit (remaining.take maxChunkLength) ['!', ' '] = none)
    (hques : specLastHit (remaining.take maxChunkLength) ['?', ' '] = none) :
    claimSplitChoice remaining = j + 2 := by
  unfold claimSplitChoice
  dsimp only
  rw [hpara, hdot, hexc, hques]
  rfl

theorem claimSplitChoice_c9text : claimSplitChoice c9text = 102 := by
  have hpara : specLastHit (c9text.take maxChunkLength) ['\n', '\n'] = none := by
    rw [c9seg_take]
    exact specLastHit_none_of _ _
      (c9_lastIndexOf_none '\n' _ (by decide) (by decide) (by decide))
  have hdot : specLastHit (c9text.take maxChunkLength) ['.', ' '] = some 100 := by
    rw [c9seg_take]
    exact specLastHit_some_of _ _ 100 c9_lastIndexOf_dot
  have hexc : specLastHit (c9text.take maxChunkLength) ['!', ' '] = none := by
    rw [c9seg_take]
    exact specLastHit_none_of _ _
      (c9_lastIndexOf_none '!' _ (by decide) (by decide) (by decide))
  have hques : specLastHit (c9text.take maxChunkLength) ['?', ' '] = none := by
    rw [c9seg_take]
    exact specLastHit_none_of _ _
      (c9_lastIndexOf_none '?' _ (by decide) (by decide) (by decide))
  exact claimSplitChoice_of_hits c9text 100 hpara hdot hexc hques

/-- C9 (counterexample): on `c9text` (window longer than
`maxChunkLength`, lone sentence terminator at index 100, before the
midpoint) the code hard-cuts at `maxChunkLength = 3800`, while the
selection rule exactly as claimed — no midpoint condition on the
sentence tier — would cut at 102. -/
theorem chooseSplit_priority_counterexample :
    maxChunkLength < c9text.length ∧
      chooseSplit c9text = 3800 ∧ claimSplitChoice c9text = 102 ∧
        chooseSplit c9text ≠ claimSplitChoice c9text := by
  refine ⟨?_, chooseSplit_c9text, claimSplitChoice_c9text, ?_⟩
  · unfold c9text maxChunkLength
    rw [List.length_append, List.length_replicate, List.length_cons,
      List.length_cons, List.length_replicate]
    omega
  · rw [chooseSplit_c9text, claimSplitChoice_c9text]
    unfold maxChunkLength
    omega

/-- C3: when the minute-bucket counter has reached
`RATE_LIMIT_REQUESTS_PER_MINUTE` (10), `checkRateLimit` refuses with
reason `minute_limit` and without `shouldNotify`, regardless of the day
counter and the notified marker: the hard minute limit takes precedence
over the soft day limit. -/
theorem checkRateLimit_minute_precedence (s : Store) (chatId : Int)
    (charCount : Nat) (minuteBucket : Nat) (dateBucket : String) (n : Nat)
    (hmin : s (RKey.minuteKey chatId minuteBucket) = some n)
    (hn : RATE_LIMIT_REQUESTS_PER_MINUTE ≤ n) :
    (checkRateLimit s chatId charCount minuteBucket dateBucket).1 =
      { allowed := false, reason := some "minute_limit",
        shouldNotify := none } := by
  unfold checkRateLimit
  dsimp only
  rw [hmin]
  rw [if_pos (by simp [minuteLimited, hn])]

theorem checkRateLimit_minute_precedence_witness :
    bothFullStore (RKey.minuteKey 7 100) = some 10 ∧
      RATE_LIMIT_REQUESTS_PER_MINUTE ≤ 10 ∧
      (checkRateLimit bothFullStore 7 500 100 "2026-10-11").1 =
        { allowed := false, reason := some "minute_limit",
          shouldNotify := none } :=
  ⟨by decide, by decide,
   checkRateLimit_minute_precedence bothFullStore 7 500 100 "2026-10-11" 10
     (by decide) (by decide)⟩

/-- C4 (counterexample): with the minute counter at the hard limit and
the day budget exceeded, `checkRateLimit` returns `allowed = false` —
the request does not proceed, contradicting the claim that a request
exceeding the day budget always yields `allowed = true`. -/
theorem checkRateLimit_day_counterexample :
    RATE_LIMIT_CHARS_PER_DAY <
        (bothFullStore (RKey.dayKey 7 "2026-10-11")).getD 0 + 500 ∧
      ((checkRateLimit bothFullStore 7 500 100 "2026-10-11").1).allowed
        = false := by
  constructor
  · decide
  · decide

/-- C4 (amended): provided the minute hard limit has not been reached, a
request pushing the day total past `RATE_LIMIT_CHARS_PER_DAY` is still
allowed with reason `day_limit`, `shouldNotify` is true exactly while
the notified marker is unset, and once `markNotified` has run for that
owner and day, a subsequent `checkRateLimit` in the same day bucket
never reports `shouldNotify = some true`. -/
theorem checkRateLimit_day_notify (s : Store) (chatId : Int)
    (charCount charCount2 : Nat) (minuteBucket minuteBucket2 : Nat)
    (dateBucket : String)
    (hmin : minuteLimited (s (RKey.minuteKey chatId minuteBucket)) = false)
    (hday : RATE_LIMIT_CHARS_PER_DAY <
      (s (RKey.dayKey chatId dateBucket)).getD 0 + charCount) :
    ((checkRateLimit s chatId charCount minuteBucket dateBucket).1 =
      { allowed := true, reason := some "day_limit",
        shouldNotify :=
          some (!(s (RKey.notifiedKey chatId dateBucket)).isSome) }) ∧
    ((checkRateLimit (runCmds s (markNotified chatId dateBucket)) chatId
        charCount2 minuteBucket2 dateBucket).1.shouldNotify ≠
      some true) := by
  constructor
  · unfold checkRateLimit
    dsimp only
    rw [if_neg (by simp [hmin])]
    rw [if_pos hday]
  · have hs2 : runCmds s (markNotified chatId dateBucket)
        (RKey.notifiedKey chatId dateBucket) = some 1 := by
      simp [runCmds, applyCmd, markNotified]
    unfold checkRateLimit
    dsimp only
    split
    · simp
    · split
      · simp [hs2]
      · simp

theorem checkRateLimit_day_notify_witness :
    minuteLimited (dayFullStore (RKey.minuteKey 7 100)) = false ∧
      RATE_LIMIT_CHARS_PER_DAY <
        (dayFullStore (RKey.dayKey 7 "2026-10-11")).getD 0 + 500 ∧
      (((checkRateLimit dayFullStore 7 500 100 "2026-10-11").1 =
        { allowed := true, reason := some "day_limit",
          shouldNotify :=
            some (!(dayFullStore (RKey.notifiedKey 7 "2026-10-11")).isSome) }) ∧
       ((checkRateLimit (runCmds dayFullStore (markNotified 7 "2026-10-11")) 7
          500 101 "2026-10-11").1.shouldNotify ≠ some true)) :=
  ⟨by decide, by decide,
   checkRateLimit_day_notify dayFullStore 7 500 500 100 101 "2026-10-11"
     (by decide) (by decide)⟩

/-- C8: `checkRateLimit` issues only `GET`s — replaying the commands of
any call leaves every key of the store unchanged — while
`incrementUsage` bumps the minute counter by exactly 1 and the day
counter by exactly the request's character count, each applied once, and
leaves every other key unchanged. -/
theorem rateLimit_frame (s : Store) (chatId : Int) (charCount : Nat)
    (minuteBucket : Nat) (dateBucket : String) (k : RKey)
    (hk1 : k ≠ RKey.minuteKey chatId minuteBucket)
    (hk2 : k ≠ RKey.dayKey chatId dateBucket) :
    runCmds s (checkRateLimit s chatId charCount minuteBucket dateBucket).2
        = s ∧
    runCmds s (incrementUsage chatId charCount minuteBucket dateBucket)
        (RKey.minuteKey chatId minuteBucket) =
      some ((s (RKey.minuteKey chatId minuteBucket)).getD 0 + 1) ∧
    runCmds s (incrementUsage chatId charCount minuteBucket dateBucket)
        (RKey.dayKey chatId dateBucket) =
      some ((s (RKey.dayKey chatId dateBucket)).getD 0 + charCount) ∧
    runCmds s (incrementUsage chatId charCount minuteBucket dateBucket) k
        = s k := by
  refine ⟨?_, ?_, ?_, ?_⟩
  · unfold checkRateLimit
    dsimp only
    split
    · rfl
    · split
      · rfl
      · rfl
  · simp [incrementUsage, runCmds, applyCmd]
  · simp [incrementUsage, runCmds, applyCmd]
  · simp [incrementUsage, runCmds, applyCmd, hk1, hk2]

theorem rateLimit_frame_witness :
    (RKey.notifiedKey 7 "2026-10-11" ≠ RKey.minuteKey 7 100 ∧
      RKey.notifiedKey 7 "2026-10-11" ≠ RKey.dayKey 7 "2026-10-11") ∧
    (runCmds dayFullStore
        (checkRateLimit dayFullStore 7 500 100 "2026-10-11").2 =
          dayFullStore ∧
      runCmds dayFullStore (incrementUsage 7 500 100 "2026-10-11")
          (RKey.minuteKey 7 100) =
        some ((dayFullStore (RKey.minuteKey 7 100)).getD 0 + 1) ∧
      runCmds dayFullStore (incrementUsage 7 500 100 "2026-10-11")
          (RKey.dayKey 7 "2026-10-11") =
        some ((dayFullStore (RKey.dayKey 7 "2026-10-11")).getD 0 + 500) ∧
      runCmds dayFullStore (incrementUsage 7 500 100 "2026-10-11")
          (RKey.notifiedKey 7 "2026-10-11") =
        dayFullStore (RKey.notifiedKey 7 "2026-10-11")) :=
  ⟨⟨by decide, by decide⟩,
   rateLimit_frame dayFullStore 7 500 100 "2026-10-11"
     (RKey.notifiedKey 7 "2026-10-11") (by decide) (by decide)⟩

/-- C5 (counterexample): a job with the unknown kind "summarize" falls
through the switch: no handler runs, no error message is sent, and the
processor resolves, so the job ends Completed — not Failed with a
user-visible error, as the claim states. -/
theorem workerDispatch_unknown_counterexample :
    workerProcess (Except.ok ()) (Except.ok ()) (Except.ok ()) "summarize" =
        (Except.ok (), []) ∧
      jobOutcome (workerProcess (Except.ok ()) (Except.ok ()) (Except.ok ())
          "summarize").1 = JobOutcome.completed := by
  constructor
  · rfl
  · rfl

/-- C5 (amended): for every job kind outside the four known ones, and
whatever the handlers would do, the worker's dispatch silently succeeds:
no handler runs, no message is sent to the user, and the job ends
Completed (no crash, but no terminal failure either). -/
theorem workerDispatch_unknown_silent
    (handleTTS handleDocument handleVoice : Except String Unit)
    (jobType : String)
    (h : jobType ∉ (["tts", "ttsai", "document", "voice"] : List String)) :
    workerProcess handleTTS handleDocument handleVoice jobType =
        (Except.ok (), []) ∧
      jobOutcome (workerProcess handleTTS handleDocument handleVoice
          jobType).1 = JobOutcome.completed := by
  have h1 : jobType ≠ "tts" := by intro he; exact h (by rw [he]; simp)
  have h2 : jobType ≠ "ttsai" := by intro he; exact h (by rw [he]; simp)
  have h3 : jobType ≠ "document" := by intro he; exact h (by rw [he]; simp)
  have h4 : jobType ≠ "voice" := by intro he; exact h (by rw [he]; simp)
  have hsw : switchBody handleTTS handleDocument handleVoice jobType =
      Except.ok () := by
    unfold switchBody
    rw [if_neg h1, if_neg h2, if_neg h3, if_neg h4]
  constructor
  · unfold workerProcess
    rw [hsw]
  · unfold workerProcess
    rw [hsw]
    rfl

theorem workerDispatch_unknown_silent_witness :
    ("summarize" ∉ (["tts", "ttsai", "document", "voice"] : List String)) ∧
      (workerProcess (Except.error "terr") (Except.error "derr")
          (Except.error "verr") "summarize" = (Except.ok (), []) ∧
        jobOutcome (workerProcess (Except.error "terr")
            (Except.error "derr") (Except.error "verr") "summarize").1 =
          JobOutcome.completed) :=
  ⟨by decide,
   workerDispatch_unknown_silent (Except.error "terr") (Except.error "derr")
     (Except.error "verr") "summarize" (by decide)⟩

/-- C6: the multi-chunk path of `generateSpeech` removes the per-job
temp directory (with all files written into it) on every exit path —
success, a throw during synthesis or file writing, ffmpeg unavailable,
or a non-zero concat exit — and the cleanup does not mask the body's
result; on a fully successful 3-chunk run and on one whose second
synthesis call throws, the body really had scratch files to clean. -/
theorem generateSpeechMulti_cleanup (env : SpeechEnv) (chunkCount : Nat) :
    ((generateSpeechMulti env chunkCount).2 = none ∧
      (generateSpeechMulti env chunkCount).1 =
        (generateSpeechBody env chunkCount).1) ∧
    ((generateSpeechMulti okEnv 3).1 = Except.ok () ∧
      (generateSpeechBody okEnv 3).2 ≠ [] ∧
      (generateSpeechMulti failEnv 3).1 = Except.error "boom" ∧
      (generateSpeechBody failEnv 3).2 ≠ []) :=
  ⟨⟨rfl, rfl⟩, rfl, by decide, rfl, by decide⟩

theorem trim_eq_nil_iff (s : Str) :
    trim s = [] ↔ ∀ c ∈ s, jsWhitespace c = true := by
  constructor
  · intro h c hc
    unfold trim at h
    rw [List.reverse_eq_nil_iff, List.dropWhile_eq_nil_iff] at h
    rw [← List.takeWhile_append_dropWhile jsWhitespace s] at hc
    rcases List.mem_append.mp hc with hm | hm
    · exact List.mem_takeWhile_imp hm
    · exact h c (List.mem_reverse.mpr hm)
  · intro h
    unfold trim
    have h1 : s.dropWhile jsWhitespace = [] :=
      List.dropWhile_eq_nil_iff.mpr (fun x hx => h x hx)
    rw [h1]
    rfl

theorem sanitize_eq_nil_iff (text : Str) :
    sanitize text = [] ↔
      ∀ c ∈ text, isStrippedControl c = true ∨ jsWhitespace c = true := by
  unfold sanitize
  rw [trim_eq_nil_iff]
  constructor
  · intro h c hc
    by_cases hctl : isStrippedControl c = true
    · exact Or.inl hctl
    · right
      apply h
      rw [List.mem_filter]
      exact ⟨hc, by simp [hctl]⟩
  · intro h c hc
    rw [List.mem_filter] at hc
    rcases h c hc.1 with hcase | hcase
    · exfalso
      have := hc.2
      simp [hcase] at this
    · exact hcase

/-- C10: an input that is nothing but whitespace and the stripped
control characters makes `generateSpeech` throw `Text is empty after
sanitization` before any chunking or provider call; any other input is
chunked after control-stripping and trimming. -/
theorem generateSpeech_sanitization (text : Str) :
    ((∀ c ∈ text, isStrippedControl c = true ∨ jsWhitespace c = true) →
      generateSpeechChunks text =
        Except.error "Text is empty after sanitization") ∧
    ((∃ c ∈ text, isStrippedControl c = false ∧ jsWhitespace c = false) →
      generateSpeechChunks text =
        Except.ok (splitTextIntoChunks (sanitize text))) := by
  constructor
  · intro h
    unfold generateSpeechChunks
    dsimp only
    rw [if_pos ((sanitize_eq_nil_iff text).mpr h)]
  · rintro ⟨c, hc, h1, h2⟩
    unfold generateSpeechChunks
    dsimp only
    have hne : ¬ (sanitize text = []) := by
      intro hnil
      rcases (sanitize_eq_nil_iff text).mp hnil c hc with hcase | hcase
      · rw [h1] at hcase
        exact Bool.false_ne_true hcase
      · rw [h2] at hcase
        exact Bool.false_ne_true hcase
    rw [if_neg hne]

theorem generateSpeech_sanitization_witness :
    generateSpeechChunks [' ', Char.ofNat 0, '\n'] =
        Except.error "Text is empty after sanitization" ∧
      generateSpeechChunks [' ', 'h', 'i'] =
        Except.ok (splitTextIntoChunks (sanitize [' ', 'h', 'i'])) :=
  ⟨(generateSpeech_sanitization [' ', Char.ofNat 0, '\n']).1 (by decide),
   (generateSpeech_sanitization [' ', 'h', 'i']).2 (by decide)⟩

end TTS
